import Mathlib

/-!
Verification development for the Food Recipe App (a minimal full-stack
recipe-sharing application: React frontend + Express/Mongoose REST backend).

The only executable code shipped in the repository is the frontend page
`frontend/food-blog-app/src/pages/EditRecipe.jsx`; it is embedded below
verbatim (JS strings as lists of characters, the React component state as an
ordered association list mirroring a JS object). The backend
(`controller/recipe.js`, `controller/user.js`, `middleware/auth.js`,
`models/*`) is present in the repository only through its design notes, so its
operations are modelled from the specification; each such definition carries a
doc comment starting with
`Modelled from the spec:` naming the missing file.
-/

set_option maxHeartbeats 1000000

/-! ## JS string primitives

JS strings are modelled as lists of characters (a JS string is a sequence of
code units). -/

/-- A JS string, modelled as a list of characters. -/
abbrev JStr := List Char

/-- Embedding of the JS expression `s.split(",")` from
`EditRecipe.jsx` line 35 (`e.target.value.split(",")`): splits at every
comma; the empty string splits to `[""]`, matching JS semantics. -/
def jsSplitComma : JStr → List JStr
  | [] => [[]]
  | c :: cs =>
    if c = ',' then [] :: jsSplitComma cs
    else (c :: (jsSplitComma cs).headI) :: (jsSplitComma cs).tail

/-- Embedding of the JS expression `l.join(",")` from
`EditRecipe.jsx` line 20 (`res.ingredients.join(",")`): the empty list joins
to the empty string, matching JS semantics. -/
def jsJoinComma : List JStr → JStr
  | [] => []
  | [x] => x
  | x :: y :: xs => x ++ ',' :: jsJoinComma (y :: xs)

theorem jsSplitComma_ne_nil (s : JStr) : jsSplitComma s ≠ [] := by
  cases s with
  | nil => simp [jsSplitComma]
  | cons c cs =>
    simp only [jsSplitComma]
    split <;> simp

theorem jsSplitComma_of_no_comma (x : JStr) (h : ',' ∉ x) : jsSplitComma x = [x] := by
  induction x with
  | nil => rfl
  | cons c cs ih =>
    have hc : ¬ c = ',' := fun e => h (by simp [e])
    have ih' : jsSplitComma cs = [cs] := ih fun m => h (List.mem_cons_of_mem _ m)
    simp [jsSplitComma, hc, ih']

theorem jsSplitComma_append_comma (x rest : JStr) (h : ',' ∉ x) :
    jsSplitComma (x ++ ',' :: rest) = x :: jsSplitComma rest := by
  induction x with
  | nil => simp [jsSplitComma]
  | cons c cs ih =>
    have hc : ¬ c = ',' := fun e => h (by simp [e])
    have ih' := ih fun m => h (List.mem_cons_of_mem _ m)
    simp [jsSplitComma, hc, ih']

/-- Splitting the comma-join of a nonempty list of comma-free strings gives
back the list. -/
theorem jsSplitComma_jsJoinComma (l : List JStr) (hne : l ≠ [])
    (h : ∀ x ∈ l, ',' ∉ x) : jsSplitComma (jsJoinComma l) = l := by
  induction l with
  | nil => exact absurd rfl hne
  | cons x xs ih =>
    cases xs with
    | nil => simpa [jsJoinComma] using jsSplitComma_of_no_comma x (h x (by simp))
    | cons y ys =>
      have hj : jsJoinComma (x :: y :: ys) = x ++ ',' :: jsJoinComma (y :: ys) := rfl
      rw [hj, jsSplitComma_append_comma x _ (h x (by simp))]
      rw [ih (by simp) (fun z hz => h z (List.mem_cons_of_mem _ hz))]

/-! ## EditRecipe.jsx: the edit-form component state -/

/-- A value held in a field of the EditRecipe form state. JS is dynamically
typed: the same `ingredients` key holds a string after `getData` but an array
after `onHandleChange`, and the `file` key holds `e.target.files[0]`
(`none` models `undefined` when no file is selected). -/
inductive FieldVal where
  | str (s : JStr)
  | arr (l : List JStr)
  | file (f : Option Nat)
deriving DecidableEq

/-- The React `recipeData` state object, a JS object modelled as an ordered
association list (insertion order preserved, later writes replace in place). -/
abbrev FormState := List (String × FieldVal)

/-- Embedding of the JS object-spread update `{...pre, [name]: val}`:
replace the value at an existing key in place, otherwise append the key. -/
def setKey (st : FormState) (k : String) (v : FieldVal) : FormState :=
  if st.any (fun p => p.1 == k) then
    st.map (fun p => if p.1 == k then (k, v) else p)
  else st ++ [(k, v)]

/-- Reading a key of the JS state object. -/
def getKey (st : FormState) (k : String) : Option FieldVal :=
  (st.find? (fun p => p.1 == k)).map (fun p => p.2)

/-- The recipe document returned by `GET /recipe/:id` as consumed by
`getData` in `EditRecipe.jsx` lines 14-21. -/
structure ServerRecipe where
  title : JStr
  ingredients : List JStr
  instructions : JStr
  time : JStr
deriving DecidableEq

/-- Embedding of the `setRecipeData` call in `getData`
(`EditRecipe.jsx` lines 18-23): the loaded state, with `ingredients` set to
`res.ingredients.join(",")` — a single comma-joined string. -/
def loadState (res : ServerRecipe) : FormState :=
  [("title", .str res.title),
   ("ingredients", .str (jsJoinComma res.ingredients)),
   ("instructions", .str res.instructions),
   ("time", .str res.time)]

/-- A DOM change event as consumed by `onHandleChange`: the target's `name`,
`value`, and `files` (file objects modelled as numeric handles). -/
structure FormEvent where
  name : String
  value : JStr
  files : List Nat
deriving DecidableEq

/-- Embedding of `onHandleChange` (`EditRecipe.jsx` lines 32-44): computes
`val` by the nested ternary on `e.target.name` — `value.split(",")` for the
ingredients field, `files[0]` for the file field, the raw value otherwise —
then performs `setRecipeData(pre => ({...pre, [e.target.name]: val}))`. -/
def onHandleChange (pre : FormState) (e : FormEvent) : FormState :=
  let val : FieldVal :=
    if e.name == "ingredients" then .arr (jsSplitComma e.value)
    else if e.name == "file" then .file e.files.head?
    else .str e.value
  setKey pre e.name val

/-- A sequence of change events applied to the form state. -/
def applyEvents (st : FormState) (es : List FormEvent) : FormState :=
  es.foldl onHandleChange st

/-- The PUT request issued by `onHandleSubmit`. -/
structure PutRequest where
  headers : List (String × String)
  body : FormState
deriving DecidableEq

/-- Embedding of `onHandleSubmit` (`EditRecipe.jsx` lines 46-61):
`axios.put` of the current `recipeData` with a multipart content type and
the header `authorization: "bearer " + localStorage.getItem("token")`.
The `token` parameter stands for the stored token. -/
def onHandleSubmit (recipeData : FormState) (token : String) : PutRequest :=
  { headers := [("Content-Type", "multipart/form-data"),
                ("authorization", "bearer " ++ token)],
    body := recipeData }

theorem find?_setKey_map_ne (k k' : String) (v : FieldVal) (h : ¬ k = k') (st : FormState) :
    (st.map (fun p => if p.1 == k then (k, v) else p)).find? (fun p => p.1 == k')
      = st.find? (fun p => p.1 == k') := by
  induction st with
  | nil => rfl
  | cons p ps ih =>
    rw [List.map_cons]
    by_cases hp : p.1 = k
    · have h1 : (p.1 == k) = true := by simp [hp]
      have h2 : ((k, v).1 == k') = false := by simp [h]
      have h3 : (p.1 == k') = false := by simp [hp, h]
      simp only [if_pos h1, List.find?_cons, h2, h3]
      exact ih
    · have h1 : ¬ ((p.1 == k) = true) := by simp [hp]
      by_cases hp' : p.1 = k'
      · have h2 : (p.1 == k') = true := by simp [hp']
        simp only [if_neg h1, List.find?_cons, h2]
      · have h2 : (p.1 == k') = false := by simp [hp']
        simp only [if_neg h1, List.find?_cons, h2]
        exact ih

theorem getKey_setKey_ne (st : FormState) (k k' : String) (v : FieldVal)
    (h : ¬ k = k') : getKey (setKey st k v) k' = getKey st k' := by
  unfold setKey getKey
  split
  · rw [find?_setKey_map_ne k k' v h st]
  · have h2 : ((k, v).1 == k') = false := by simp [h]
    rw [List.find?_append]
    simp only [List.find?_cons, h2, List.find?_nil]
    cases st.find? (fun p => p.1 == k') <;> rfl

theorem find?_setKey_map_self (st : FormState) (k : String) (v : FieldVal)
    (hany : st.any (fun p => p.1 == k) = true) :
    (st.map (fun p => if p.1 == k then (k, v) else p)).find? (fun p => p.1 == k)
      = some (k, v) := by
  induction st with
  | nil => cases hany
  | cons p ps ih =>
    rw [List.map_cons]
    by_cases hp : p.1 = k
    · have h1 : (p.1 == k) = true := by simp [hp]
      have h2 : ((k, v).1 == k) = true := by simp
      simp only [if_pos h1, List.find?_cons, h2]
    · have h1 : ¬ ((p.1 == k) = true) := by simp [hp]
      have h1f : (p.1 == k) = false := by simp [hp]
      have hany' : ps.any (fun p => p.1 == k) = true := by
        simpa [List.any_cons, h1f] using hany
      rw [if_neg h1]
      simp only [List.find?_cons, h1f]
      exact ih hany'

theorem getKey_setKey_self (st : FormState) (k : String) (v : FieldVal) :
    getKey (setKey st k v) k = some v := by
  unfold setKey getKey
  split
  next hany =>
    rw [find?_setKey_map_self st k v hany]
    rfl
  next hany =>
    have hnone : st.find? (fun p => p.1 == k) = none := by
      rw [List.find?_eq_none]
      intro x hx hpx
      exact hany (List.any_eq_true.mpr ⟨x, hx, hpx⟩)
    have h2 : ((k, v).1 == k) = true := by simp
    rw [List.find?_append, hnone]
    simp only [List.find?_cons, h2]
    rfl

theorem getKey_applyEvents_ne (st : FormState) (es : List FormEvent) (k : String)
    (h : ∀ e ∈ es, ¬ e.name = k) : getKey (applyEvents st es) k = getKey st k := by
  induction es generalizing st with
  | nil => rfl
  | cons e es ih =>
    have hstep : applyEvents st (e :: es) = applyEvents (onHandleChange st e) es := rfl
    rw [hstep, ih _ (fun x hx => h x (List.mem_cons_of_mem _ hx))]
    exact getKey_setKey_ne st e.name k _ (h e (by simp))

/-! ## Backend model

The backend sources (`server.js`, `controller/recipe.js`, `controller/user.js`,
`middleware/auth.js`, `models/user.js`, `models/recipe.js`) are absent from the
repository snapshot; only the design notes describe them. The definitions in
this section are therefore modelled from the specification. -/

/-- Modelled from the spec: the error taxonomy of section 7 (the backend
controllers translating failures to HTTP statuses are not under `src/`). -/
inductive ApiError where
  | validationErr
  | authErr
  | notFoundErr
  | conflictErr
  | internalErr
deriving DecidableEq

/-- Modelled from the spec: the HTTP status code each error class maps to
(section 7). -/
def ApiError.statusCode : ApiError → Nat
  | .validationErr => 400
  | .authErr => 401
  | .notFoundErr => 404
  | .conflictErr => 409
  | .internalErr => 500

/-- Modelled from the spec: the `Recipe` document of `models/recipe.js`
(not under `src/`), per section 3 of the spec. Server timestamps
(`createdAt`/`updatedAt`) are elided: the claims under verification compare
documents up to server-assigned timestamps. -/
structure Recipe where
  id : Nat
  title : String
  ingredients : List String
  instructions : String
  time : String
  image : Option String
  author : Nat
deriving DecidableEq

/-- Modelled from the spec: the caller-supplied fields of a recipe
create/update request body (section 6). -/
structure RecipePayload where
  title : String
  ingredients : List String
  instructions : String
  time : String
  image : Option String
deriving DecidableEq

/-- Modelled from the spec: the `recipes` collection with its id generator. -/
structure RecipeDB where
  recipes : List Recipe
  nextId : Nat
deriving DecidableEq

/-- Modelled from the spec: `Model.findById(id)` over the recipes collection. -/
def findById (db : RecipeDB) (id : Nat) : Option Recipe :=
  db.recipes.find? (fun r => r.id == id)

/-- Modelled from the spec: presence validation of a recipe body
("malformed input → BadRequest", section 4.4). -/
def recipePayloadValid (p : RecipePayload) : Bool :=
  !p.title.isEmpty && !p.instructions.isEmpty && !p.time.isEmpty

/-- Modelled from the spec: `createRecipe` of `controller/recipe.js`
(not under `src/`): validate, persist a new `Recipe` with `author` from the
authenticated context, return the created document (section 4.4). -/
def createRecipe (db : RecipeDB) (author : Nat) (p : RecipePayload) :
    Except ApiError Recipe × RecipeDB :=
  if recipePayloadValid p then
    let r : Recipe :=
      { id := db.nextId, title := p.title, ingredients := p.ingredients,
        instructions := p.instructions, time := p.time, image := p.image,
        author := author }
    (.ok r, { recipes := db.recipes ++ [r], nextId := db.nextId + 1 })
  else (.error .validationErr, db)

/-- Modelled from the spec: the field replacement performed by
`Model.findByIdAndUpdate(id, updates, { new: true })` — the named fields are
replaced by the caller-supplied values, id and author are untouched. -/
def applyUpdate (r : Recipe) (p : RecipePayload) : Recipe :=
  { r with title := p.title, ingredients := p.ingredients,
           instructions := p.instructions, time := p.time, image := p.image }

/-- The per-document update function applied across the collection. -/
def updF (id : Nat) (p : RecipePayload) : Recipe → Recipe :=
  fun q => if q.id == id then applyUpdate q p else q

/-- Modelled from the spec: `updateRecipe` of `controller/recipe.js`
(not under `src/`): missing id → `NotFound`, else replace the named fields and
return the updated document (section 4.4). -/
def updateRecipe (db : RecipeDB) (id : Nat) (p : RecipePayload) :
    Except ApiError Recipe × RecipeDB :=
  match db.recipes.find? (fun r => r.id == id) with
  | none => (.error .notFoundErr, db)
  | some r =>
      (.ok (applyUpdate r p), { db with recipes := db.recipes.map (updF id p) })

/-- Modelled from the spec: `deleteRecipe` of `controller/recipe.js`
(not under `src/`): remove the document by id, `NotFound` when absent
(section 4.4). -/
def deleteRecipe (db : RecipeDB) (id : Nat) : Except ApiError Unit × RecipeDB :=
  match db.recipes.find? (fun r => r.id == id) with
  | none => (.error .notFoundErr, db)
  | some _ => (.ok (), { db with recipes := db.recipes.filter (fun r => !(r.id == id)) })

/-- Modelled from the spec: `GET /recipes/:id` — one `Recipe` or `NotFound`
(section 4.4). -/
def getRecipeById (db : RecipeDB) (id : Nat) : Except ApiError Recipe :=
  match findById db id with
  | none => .error .notFoundErr
  | some r => .ok r

/-- Modelled from the spec: a JWT as verified by `middleware/auth.js`
(not under `src/`). The wire encoding is elided: a token is modelled as its
decoded claims (user id, expiry) plus its signature. -/
structure AuthToken where
  uid : Nat
  expiry : Nat
  sig : Nat
deriving DecidableEq

/-- Modelled from the spec: signing a token's claims with the server secret
(an abstract signing function; only signature matching matters here). -/
def signToken (secret uid expiry : Nat) : Nat :=
  secret * 1000003 + uid * 1009 + expiry

/-- Modelled from the spec: token verification — signature must match the
server secret and the token must not be expired (section 4.3). -/
def verifyToken (secret now : Nat) (t : AuthToken) : Bool :=
  t.sig == signToken secret t.uid t.expiry && decide (now < t.expiry)

/-- Modelled from the spec: a request to a protected recipe endpoint — the
bearer token carried by the authorization header (`none` when the header is
absent or malformed) and the request body. -/
structure ApiRequest where
  bearer : Option AuthToken
  payload : RecipePayload
deriving DecidableEq

/-- Modelled from the spec: `middleware/auth.js` (not under `src/`) — fails
with `Unauthorized` if the bearer token is absent, malformed, not matching
the signature, or expired; on success yields the embedded user id
(section 4.3). -/
def authMiddleware (secret now : Nat) (req : ApiRequest) : Except ApiError Nat :=
  match req.bearer with
  | none => .error .authErr
  | some t => if verifyToken secret now t then .ok t.uid else .error .authErr

/-- Modelled from the spec: the protected `POST /recipes` route — auth
middleware first, then the create controller (sections 4.3-4.4). -/
def handleCreate (secret now : Nat) (req : ApiRequest) (db : RecipeDB) :
    Except ApiError Recipe × RecipeDB :=
  match authMiddleware secret now req with
  | .error e => (.error e, db)
  | .ok uid => createRecipe db uid req.payload

/-- Modelled from the spec: the protected `PUT /recipes/:id` route. -/
def handleUpdate (secret now : Nat) (req : ApiRequest) (id : Nat) (db : RecipeDB) :
    Except ApiError Recipe × RecipeDB :=
  match authMiddleware secret now req with
  | .error e => (.error e, db)
  | .ok _ => updateRecipe db id req.payload

/-- Modelled from the spec: the protected `DELETE /recipes/:id` route. -/
def handleDelete (secret now : Nat) (req : ApiRequest) (id : Nat) (db : RecipeDB) :
    Except ApiError Unit × RecipeDB :=
  match authMiddleware secret now req with
  | .error e => (.error e, db)
  | .ok _ => deleteRecipe db id

/-- Modelled from the spec: the `User` document of `models/user.js`
(not under `src/`), per section 3. -/
structure User where
  id : Nat
  name : String
  email : String
  passwordHash : String
  createdAt : Nat
deriving DecidableEq

/-- Modelled from the spec: the `users` collection with its id generator. -/
structure UserDB where
  users : List User
  nextId : Nat
deriving DecidableEq

/-- Modelled from the spec: the salted one-way bcrypt hash used at
registration (`controller/user.js` is not under `src/`). Only the structural
property the claims use is modelled: the output is the bcrypt format tag
followed by the salt and a password-derived digest, so it never equals the
plaintext password. -/
def bcryptHash (salt pw : String) : String :=
  "$2b$10$" ++ salt ++ pw

/-- Modelled from the spec: presence validation at registration
("all fields present", section 4.1). -/
def registerValid (name email pw : String) : Bool :=
  !name.isEmpty && !email.isEmpty && !pw.isEmpty

/-- Modelled from the spec: the registration response body — the created
user's public fields, never the hash (section 4.1). -/
def registerResponseBody (u : User) : List (String × String) :=
  [("id", toString u.id), ("name", u.name), ("email", u.email),
   ("createdAt", toString u.createdAt)]

/-- Modelled from the spec: `registerUser` of `controller/user.js`
(not under `src/`): an already-used email yields `Conflict` and no write;
otherwise validate presence, hash the password and persist (sections 4.1, 8).
The spec fixes no order between the duplicate-email check and presence
validation; the duplicate check is modelled first, matching the spec's
testable property that a duplicate email always yields `Conflict`. -/
def registerUser (db : UserDB) (name email pw salt : String) (now : Nat) :
    Except ApiError (List (String × String)) × UserDB :=
  if db.users.any (fun u => u.email == email) then (.error .conflictErr, db)
  else if registerValid name email pw then
    let u : User :=
      { id := db.nextId, name := name, email := email,
        passwordHash := bcryptHash salt pw, createdAt := now }
    (.ok (registerResponseBody u), { users := db.users ++ [u], nextId := db.nextId + 1 })
  else (.error .validationErr, db)

/-- User-store states reachable from the empty store by registrations — the
only user mutation the spec admits (users are immutable after creation). -/
inductive UserReachable : UserDB → Prop where
  | init : UserReachable ⟨[], 0⟩
  | step (db : UserDB) (n e p s : String) (t : Nat) :
      UserReachable db → UserReachable (registerUser db n e p s t).2

/-! ## Helper lemmas for the claim theorems -/

theorem find?_append_left_none {α : Type} (p : α → Bool) (l₁ l₂ : List α)
    (h : l₁.find? p = none) : (l₁ ++ l₂).find? p = l₂.find? p := by
  rw [List.find?_append, h]
  rfl

theorem updF_updF (id : Nat) (p : RecipePayload) (q : Recipe) :
    updF id p (updF id p q) = updF id p q := by
  unfold updF
  by_cases hq : q.id = id
  · have h2 : (q.id == id) = true := by simp [hq]
    have h3 : ((applyUpdate q p).id == id) = true := h2
    rw [if_pos h2, if_pos h3]
    rfl
  · have h2 : ¬ ((q.id == id) = true) := by simp [hq]
    rw [if_neg h2, if_neg h2]

theorem find?_map_updF (id : Nat) (p : RecipePayload) (l : List Recipe) :
    (l.map (updF id p)).find? (fun r => r.id == id)
      = (l.find? (fun r => r.id == id)).map (updF id p) := by
  induction l with
  | nil => rfl
  | cons q qs ih =>
    rw [List.map_cons]
    by_cases hq : q.id = id
    · have h2 : (q.id == id) = true := by simp [hq]
      have h1 : ((updF id p q).id == id) = true := by
        unfold updF
        rw [if_pos h2]
        exact h2
      simp only [List.find?_cons, h1, h2]
      rfl
    · have h2 : (q.id == id) = false := by simp [hq]
      have h1 : ((updF id p q).id == id) = false := by
        unfold updF
        have h2' : ¬ ((q.id == id) = true) := by simp [hq]
        rw [if_neg h2']
        exact h2
      simp only [List.find?_cons, h1, h2]
      exact ih

theorem bcryptHash_ne_plaintext (s p : String) : bcryptHash s p ≠ p := by
  intro e
  have hlen := congrArg String.length e
  rw [bcryptHash, String.length_append, String.length_append] at hlen
  have h7 : ("$2b$10$" : String).length = 7 := rfl
  rw [h7] at hlen
  omega

/-! ## Claim theorems -/

/-- C1: every protected endpoint (recipe create, update, delete) invoked
without a valid bearer token yields `AuthError` (401), for every request
payload — the decision is independent of the payload's validity. -/
theorem missing_valid_token_yields_auth_error
    (secret now : Nat) (req : ApiRequest) (db : RecipeDB) (id : Nat)
    (h : ∀ t, req.bearer = some t → verifyToken secret now t = false) :
    ((handleCreate secret now req db).1 = .error .authErr ∧
     (handleUpdate secret now req id db).1 = .error .authErr ∧
     (handleDelete secret now req id db).1 = .error .authErr) ∧
    ApiError.authErr.statusCode = 401 := by
  have hm : authMiddleware secret now req = .error .authErr := by
    unfold authMiddleware
    cases hb : req.bearer with
    | none => rfl
    | some t =>
      have hv : ¬ (verifyToken secret now t = true) := by simp [h t hb]
      simp [hv]
  refine ⟨⟨?_, ?_, ?_⟩, rfl⟩ <;>
    simp only [handleCreate, handleUpdate, handleDelete, hm]

/-- C1 witness: a request with no authorization header and an invalid payload
is rejected with 401 by all three protected endpoints. -/
theorem missing_valid_token_yields_auth_error_witness :
    ((handleCreate 0 0 ⟨none, ⟨"", [], "", "", none⟩⟩ ⟨[], 0⟩).1 = .error .authErr ∧
     (handleUpdate 0 0 ⟨none, ⟨"", [], "", "", none⟩⟩ 0 ⟨[], 0⟩).1 = .error .authErr ∧
     (handleDelete 0 0 ⟨none, ⟨"", [], "", "", none⟩⟩ 0 ⟨[], 0⟩).1 = .error .authErr) ∧
    ApiError.authErr.statusCode = 401 :=
  missing_valid_token_yields_auth_error 0 0 ⟨none, ⟨"", [], "", "", none⟩⟩ ⟨[], 0⟩ 0
    (fun t ht => by cases ht)

/-- C2 counterexample: load a recipe with ingredients `["egg","ham"]` and
submit without touching the ingredients input — the payload's ingredients
value is the comma-joined string itself (a string), not the sequence obtained
by splitting it on commas, so the update payload is not always normalized. -/
theorem update_not_always_normalized_cex :
    getKey (onHandleSubmit (loadState
        ⟨['T'], [['e','g','g'], ['h','a','m']], ['I'], ['5']⟩) "tk").body "ingredients"
      = some (.str ['e','g','g',',','h','a','m']) ∧
    FieldVal.str ['e','g','g',',','h','a','m']
      ≠ FieldVal.arr (jsSplitComma ['e','g','g',',','h','a','m']) := by
  refine ⟨rfl, ?_⟩
  decide

/-- C2 (amended): the ingredients value of an update payload is normalized
(split on commas) exactly when the ingredients input was edited: after an
edit of the ingredients input with value `v`, the submitted ingredients field
is the sequence `v.split(",")`. -/
theorem ingredients_normalized_when_edited (res : ServerRecipe) (v : JStr)
    (fs : List Nat) (token : String) :
    getKey (onHandleSubmit
        (onHandleChange (loadState res) ⟨"ingredients", v, fs⟩) token).body "ingredients"
      = some (.arr (jsSplitComma v)) := by
  show getKey (setKey (loadState res) "ingredients" (.arr (jsSplitComma v))) "ingredients" = _
  exact getKey_setKey_self _ _ _

/-- C3 counterexample: for the stored token `"tok"`, the request built by
`onHandleSubmit` carries no header named `Authorization` with value
`Bearer tok`: the header it sends is `authorization: bearer tok`. -/
theorem auth_header_capitalization_cex :
    (onHandleSubmit [] "tok").headers
      = [("Content-Type", "multipart/form-data"), ("authorization", "bearer tok")] ∧
    ("Authorization", "Bearer tok") ∉ (onHandleSubmit [] "tok").headers := by
  refine ⟨rfl, ?_⟩
  decide

/-- C3 (amended): every authenticated request sent by the client carries a
header named `authorization` (lowercase) whose value is the literal string
`"bearer "` (lowercase scheme) followed by the token. -/
theorem auth_header_lowercase_bearer (st : FormState) (token : String) :
    ("authorization", "bearer " ++ token) ∈ (onHandleSubmit st token).headers := by
  simp [onHandleSubmit]

/-- C4: update is idempotent — for every existing recipe id and every update
payload, applying the update twice yields the same final collection state as
applying it once. -/
theorem update_idempotent (db : RecipeDB) (id : Nat) (p : RecipePayload)
    (h : (findById db id).isSome = true) :
    (updateRecipe (updateRecipe db id p).2 id p).2 = (updateRecipe db id p).2 := by
  unfold findById at h
  cases hf : db.recipes.find? (fun r => r.id == id) with
  | none => rw [hf] at h; cases h
  | some r =>
    simp only [updateRecipe, hf]
    rw [find?_map_updF, hf]
    simp only [Option.map_some']
    have hff : updF id p ∘ updF id p = updF id p := funext (updF_updF id p)
    rw [List.map_map, hff]

/-- C4 witness: updating a concrete stored recipe twice with the same payload
leaves the collection exactly as after one update. -/
theorem update_idempotent_witness :
    (updateRecipe (updateRecipe ⟨[⟨1, "T", ["e"], "I", "5", none, 0⟩], 2⟩ 1
        ⟨"T2", ["x"], "I2", "9", none⟩).2 1 ⟨"T2", ["x"], "I2", "9", none⟩).2
      = (updateRecipe ⟨[⟨1, "T", ["e"], "I", "5", none, 0⟩], 2⟩ 1
        ⟨"T2", ["x"], "I2", "9", none⟩).2 :=
  update_idempotent ⟨[⟨1, "T", ["e"], "I", "5", none, 0⟩], 2⟩ 1
    ⟨"T2", ["x"], "I2", "9", none⟩ (by decide)

/-- C5: registering with the email of an already-registered user yields
`ConflictError` (409) and leaves the stored users unchanged — no second user
with that email is ever created. -/
theorem register_duplicate_email_conflict (db : UserDB)
    (name email pw salt : String) (now : Nat)
    (h : ∃ u ∈ db.users, u.email = email) :
    (registerUser db name email pw salt now).1 = .error .conflictErr ∧
    (registerUser db name email pw salt now).2 = db ∧
    ApiError.conflictErr.statusCode = 409 := by
  have hc : (db.users.any (fun u => u.email == email)) = true := by
    rcases h with ⟨u, hu, he⟩
    exact List.any_eq_true.mpr ⟨u, hu, by simp [he]⟩
  refine ⟨?_, ?_, rfl⟩ <;> simp only [registerUser, if_pos hc]

/-- C5 witness: registering a second user with an already-stored email fails
with 409 and the store is unchanged. -/
theorem register_duplicate_email_conflict_witness :
    (registerUser ⟨[⟨0, "A", "a@x.com", "h", 0⟩], 1⟩ "B" "a@x.com" "pw" "s" 5).1
      = .error .conflictErr ∧
    (registerUser ⟨[⟨0, "A", "a@x.com", "h", 0⟩], 1⟩ "B" "a@x.com" "pw" "s" 5).2
      = ⟨[⟨0, "A", "a@x.com", "h", 0⟩], 1⟩ ∧
    ApiError.conflictErr.statusCode = 409 :=
  register_duplicate_email_conflict ⟨[⟨0, "A", "a@x.com", "h", 0⟩], 1⟩ "B" "a@x.com" "pw" "s" 5
    ⟨⟨0, "A", "a@x.com", "h", 0⟩, by simp, rfl⟩

/-- C6: for every valid recipe payload, creating the recipe and fetching it by
the returned id yields a document whose caller-supplied fields equal the
input, the server-assigned id and author apart. -/
theorem create_then_get_field_equal (db : RecipeDB) (author : Nat) (p : RecipePayload)
    (hv : recipePayloadValid p = true)
    (hfresh : ∀ r ∈ db.recipes, r.id < db.nextId) :
    ∃ r : Recipe, (createRecipe db author p).1 = .ok r ∧
      findById (createRecipe db author p).2 r.id = some r ∧
      r.title = p.title ∧ r.ingredients = p.ingredients ∧
      r.instructions = p.instructions ∧ r.time = p.time ∧
      r.image = p.image ∧ r.author = author := by
  refine ⟨⟨db.nextId, p.title, p.ingredients, p.instructions, p.time, p.image, author⟩,
    ?_, ?_, rfl, rfl, rfl, rfl, rfl, rfl⟩
  · simp only [createRecipe, if_pos hv]
  · simp only [createRecipe, if_pos hv, findById]
    have hnone : db.recipes.find? (fun r => r.id == db.nextId) = none := by
      rw [List.find?_eq_none]
      intro x hx
      simp [Nat.ne_of_lt (hfresh x hx)]
    rw [find?_append_left_none _ _ _ hnone]
    simp [List.find?_cons]

/-- C6 witness: creating a concrete recipe in the empty store and fetching it
back returns a field-equal document. -/
theorem create_then_get_field_equal_witness :
    ∃ r : Recipe, (createRecipe ⟨[], 0⟩ 7 ⟨"Cake", ["egg"], "Mix", "10", none⟩).1 = .ok r ∧
      findById (createRecipe ⟨[], 0⟩ 7 ⟨"Cake", ["egg"], "Mix", "10", none⟩).2 r.id = some r ∧
      r.title = "Cake" ∧ r.ingredients = ["egg"] ∧
      r.instructions = "Mix" ∧ r.time = "10" ∧
      r.image = none ∧ r.author = 7 :=
  create_then_get_field_equal ⟨[], 0⟩ 7 ⟨"Cake", ["egg"], "Mix", "10", none⟩
    (by decide) (fun r hr => absurd hr (List.not_mem_nil r))

/-- C7: deleting a recipe and then fetching the same id always yields
`NotFoundError` (404), whether or not the id was present. -/
theorem delete_then_get_not_found (db : RecipeDB) (id : Nat) :
    getRecipeById (deleteRecipe db id).2 id = .error .notFoundErr ∧
    ApiError.notFoundErr.statusCode = 404 := by
  refine ⟨?_, rfl⟩
  cases hf : db.recipes.find? (fun r => r.id == id) with
  | none =>
    simp only [deleteRecipe, hf, getRecipeById, findById]
  | some r =>
    simp only [deleteRecipe, hf, getRecipeById, findById]
    have hnone : (db.recipes.filter (fun r => !(r.id == id))).find?
        (fun r => r.id == id) = none := by
      rw [List.find?_eq_none]
      intro x hx
      have hmem := (List.mem_filter.mp hx).2
      simp at hmem ⊢
      exact hmem
    rw [hnone]

/-- C8: in every reachable user-store state, every stored user's passwordHash
is a salted hash that differs from the plaintext it was derived from, and the
registration response never contains a passwordHash field. -/
theorem password_hash_invariant (db : UserDB) (h : UserReachable db) :
    (∀ u ∈ db.users, ∃ s p, u.passwordHash = bcryptHash s p ∧ u.passwordHash ≠ p) ∧
    (∀ u : User, "passwordHash" ∉ (registerResponseBody u).map Prod.fst) := by
  constructor
  · induction h with
    | init => intro u hu; cases hu
    | step db n e p s t hdb ih =>
      intro u hu
      by_cases hc : (db.users.any (fun x => x.email == e)) = true
      · simp only [registerUser, if_pos hc] at hu
        exact ih u hu
      · by_cases hv : (registerValid n e p) = true
        · simp only [registerUser, if_neg hc, if_pos hv] at hu
          rcases List.mem_append.mp hu with hu | hu
          · exact ih u hu
          · rcases List.mem_singleton.mp hu with rfl
            exact ⟨s, p, rfl, bcryptHash_ne_plaintext s p⟩
        · simp only [registerUser, if_neg hc, if_neg hv] at hu
          exact ih u hu
  · intro u
    simp only [registerResponseBody, List.map_cons, List.map_nil]
    decide

/-- C8 witness: after one concrete registration from the empty store, every
stored user's hash differs from its plaintext and the response body carries no
passwordHash field. -/
theorem password_hash_invariant_witness :
    (∀ u ∈ (registerUser ⟨[], 0⟩ "A" "a@x.com" "pw" "sa" 3).2.users,
        ∃ s p, u.passwordHash = bcryptHash s p ∧ u.passwordHash ≠ p) ∧
    (∀ u : User, "passwordHash" ∉ (registerResponseBody u).map Prod.fst) :=
  password_hash_invariant _ (UserReachable.step ⟨[], 0⟩ "A" "a@x.com" "pw" "sa" 3 UserReachable.init)

/-- C9: in the EditRecipe form, a submit with the ingredients input never
edited carries the comma-joined string produced at load time
(`res.ingredients.join(",")`, a single string); after any edit of that input
the submitted value is the array obtained by splitting the last entered value
on commas — so the type of the submitted ingredients field depends on whether
the field was touched. -/
theorem edit_form_ingredients_payload_shape (res : ServerRecipe)
    (es : List FormEvent) (token : String) :
    ((∀ e ∈ es, ¬ e.name = "ingredients") →
      getKey (onHandleSubmit (applyEvents (loadState res) es) token).body "ingredients"
        = some (.str (jsJoinComma res.ingredients))) ∧
    (∀ es₁ v fs es₂,
      es = es₁ ++ { name := "ingredients", value := v, files := fs } :: es₂ →
      (∀ e ∈ es₂, ¬ e.name = "ingredients") →
      getKey (onHandleSubmit (applyEvents (loadState res) es) token).body "ingredients"
        = some (.arr (jsSplitComma v))) := by
  constructor
  · intro hno
    show getKey (applyEvents (loadState res) es) "ingredients" = _
    rw [getKey_applyEvents_ne _ _ _ hno]
    rfl
  · intro es₁ v fs es₂ heq hno
    subst heq
    show getKey (applyEvents (loadState res)
      (es₁ ++ ⟨"ingredients", v, fs⟩ :: es₂)) "ingredients" = _
    have hsplit : applyEvents (loadState res) (es₁ ++ ⟨"ingredients", v, fs⟩ :: es₂)
        = applyEvents (onHandleChange (applyEvents (loadState res) es₁)
            ⟨"ingredients", v, fs⟩) es₂ := by
      unfold applyEvents
      rw [List.foldl_append, List.foldl_cons]
    rw [hsplit, getKey_applyEvents_ne _ _ _ hno]
    show getKey (setKey (applyEvents (loadState res) es₁) "ingredients"
      (.arr (jsSplitComma v))) "ingredients" = _
    exact getKey_setKey_self _ _ _

/-- C9 witness: with a concrete loaded recipe, an untouched submit carries the
joined string and a submit after one ingredients edit carries the split
array. -/
theorem edit_form_ingredients_payload_shape_witness :
    getKey (onHandleSubmit (applyEvents
        (loadState ⟨['T'], [['e','g','g']], ['I'], ['5']⟩) []) "tk").body "ingredients"
      = some (.str (jsJoinComma [['e','g','g']])) ∧
    getKey (onHandleSubmit (applyEvents (loadState ⟨['T'], [['e','g','g']], ['I'], ['5']⟩)
        [⟨"ingredients", ['h','a','m'], []⟩]) "tk").body "ingredients"
      = some (.arr (jsSplitComma ['h','a','m'])) :=
  ⟨(edit_form_ingredients_payload_shape ⟨['T'], [['e','g','g']], ['I'], ['5']⟩ [] "tk").1
      (fun e he => absurd he (List.not_mem_nil e)),
   (edit_form_ingredients_payload_shape ⟨['T'], [['e','g','g']], ['I'], ['5']⟩
        [⟨"ingredients", ['h','a','m'], []⟩] "tk").2
      [] ['h','a','m'] [] [] rfl (fun e he => absurd he (List.not_mem_nil e))⟩

/-- C10 counterexample: the empty ingredient list contains no comma, yet the
join-then-split round trip does not return it — `[].join(",")` is the empty
string and splitting that on commas yields `[""]`, not `[]`. -/
theorem join_split_roundtrip_cex :
    (∀ x ∈ ([] : List JStr), ',' ∉ x) ∧
    jsSplitComma (jsJoinComma ([] : List JStr)) ≠ [] := by
  refine ⟨fun x hx => absurd hx (List.not_mem_nil x), ?_⟩
  decide

/-- C10 (amended): the join-then-split normalization is a round trip exactly
for nonempty comma-free lists — for every nonempty list of strings none of
which contains a comma, splitting the comma-join returns the original list;
and some list with an element containing a comma round-trips to a different,
longer list. -/
theorem join_split_roundtrip_iff_comma_free (l : List JStr) (hne : l ≠ [])
    (h : ∀ x ∈ l, ',' ∉ x) :
    jsSplitComma (jsJoinComma l) = l ∧
    ∃ bad : List JStr, (∃ x ∈ bad, ',' ∈ x) ∧
      jsSplitComma (jsJoinComma bad) ≠ bad ∧
      bad.length < (jsSplitComma (jsJoinComma bad)).length := by
  refine ⟨jsSplitComma_jsJoinComma l hne h, ⟨[['a',',','b']], ?_, ?_, ?_⟩⟩
  · exact ⟨['a',',','b'], by decide, by decide⟩
  · decide
  · decide

/-- C10 witness: the round trip holds at the concrete comma-free list
`["egg"]`, and the comma-containing counterexample list is exhibited. -/
theorem join_split_roundtrip_iff_comma_free_witness :
    jsSplitComma (jsJoinComma [['e','g','g']]) = [['e','g','g']] ∧
    ∃ bad : List JStr, (∃ x ∈ bad, ',' ∈ x) ∧
      jsSplitComma (jsJoinComma bad) ≠ bad ∧
      bad.length < (jsSplitComma (jsJoinComma bad)).length :=
  join_split_roundtrip_iff_comma_free [['e','g','g']] (by decide) (by decide)
